import Mathlib

/-!
Verification of the before-you-bet frontend data-access layer
(src/frontend/src/lib/api.ts) and of the decision-metrics engine described
in the specification.

The embedding is shallow: promises are modelled by explicit results, the
network by an environment mapping each request (and each retry attempt) to
a response, and JS numbers by exact rationals.
-/

/-- A JavaScript value that can be thrown.  `errObj nm msg` is an `Error`
instance with its `name` and `message`; `str s` is any non-`Error` thrown
value, represented by its `String(·)` form; `jsNull` is the `null` value.
The `aggregate` constructor is Modelled from the spec: the spec's
`AggregateFetchError` (an error wrapping a failing item's identifier and its
original error); no such error class exists anywhere under src/, the
constructor exists only so that its absence from the code's failure path can
be stated. -/
inductive JSVal where
  | errObj (nm msg : String)
  | str (s : String)
  | jsNull
  | aggregate (item : String) (inner : JSVal)
deriving DecidableEq, Repr

/-- Models `error instanceof Error ? error : new Error(String(error))`
from fetchWithRetry (api.ts line 58).  `String(null) = "null"`. -/
def coerceToError : JSVal → JSVal
  | .errObj nm msg => .errObj nm msg
  | .aggregate t e => .aggregate t e
  | .str s => .errObj "Error" s
  | .jsNull => .errObj "Error" "null"

/-- Decidable equality for fetch outcomes, used to evaluate concrete runs. -/
instance {E T : Type} [DecidableEq E] [DecidableEq T] :
    DecidableEq (Except E T) := fun x y =>
  match x, y with
  | .ok a, .ok b =>
    if h : a = b then .isTrue (by rw [h]) else .isFalse (by intro hc; cases hc; exact h rfl)
  | .error a, .error b =>
    if h : a = b then .isTrue (by rw [h]) else .isFalse (by intro hc; cases hc; exact h rfl)
  | .ok _, .error _ => .isFalse (by intro hc; cases hc)
  | .error _, .ok _ => .isFalse (by intro hc; cases hc)

/-- Observable trace of one fetchWithRetry call: its outcome (`Except.error`
is a thrown value, possibly the initial `null`), how many times the wrapped
function was invoked, and the backoff delays awaited between attempts, in
order. -/
structure RetryTrace (T : Type) where
  result : Except JSVal T
  calls : Nat
  delays : List Nat
deriving DecidableEq, Repr

/-- The loop body of fetchWithRetry (api.ts lines 54-65).  `attempt` is the
current loop index, `remaining = maxRetries - attempt` the iterations left,
`lastError` the current value of the `lastError` variable.  A delay of
`baseDelay * 2 ^ attempt` is awaited only when the failed attempt is not the
last one (`attempt < maxRetries - 1`, i.e. `remaining > 1`). -/
def fetchWithRetryGo {T : Type} (fn : Nat → Except JSVal T) (baseDelay : Nat) :
    Nat → Nat → JSVal → RetryTrace T
  | _, 0, lastError => ⟨.error lastError, 0, []⟩
  | attempt, r + 1, _ =>
    match fn attempt with
    | .ok v => ⟨.ok v, 1, []⟩
    | .error e =>
      let le := coerceToError e
      let rest := fetchWithRetryGo fn baseDelay (attempt + 1) r le
      if r = 0 then ⟨rest.result, rest.calls + 1, rest.delays⟩
      else ⟨rest.result, rest.calls + 1, baseDelay * 2 ^ attempt :: rest.delays⟩

/-- fetchWithRetry (api.ts lines 48-67).  `fn k` is the outcome of the
wrapped zero-argument operation on its `k`-th invocation (0-based);
`maxRetries` is a JS number, so it may be non-positive, in which case the
`for` loop runs zero times and the initial `lastError = null` is thrown. -/
def fetchWithRetry {T : Type} (fn : Nat → Except JSVal T) (maxRetries : Int)
    (baseDelay : Nat) : RetryTrace T :=
  fetchWithRetryGo fn baseDelay 0 maxRetries.toNat .jsNull

namespace RetryLemmas

theorem go_calls_le {T : Type} (fn : Nat → Except JSVal T) (b : Nat) :
    ∀ (a r : Nat) (le : JSVal), (fetchWithRetryGo fn b a r le).calls ≤ r := by
  intro a r
  induction r generalizing a with
  | zero => intro le; simp [fetchWithRetryGo]
  | succ n ih =>
    intro le
    simp only [fetchWithRetryGo]
    cases fn a with
    | ok v => simp
    | error e =>
      simp only
      have h := ih (a + 1) (coerceToError e)
      by_cases hr : n = 0
      · subst hr; simp [fetchWithRetryGo]
      · simp only [if_neg hr]
        simpa using Nat.succ_le_succ h

theorem go_calls_pos {T : Type} (fn : Nat → Except JSVal T) (b : Nat)
    (a r : Nat) (le : JSVal) (hr : 1 ≤ r) :
    1 ≤ (fetchWithRetryGo fn b a r le).calls := by
  cases r with
  | zero => omega
  | succ n =>
    simp only [fetchWithRetryGo]
    cases fn a with
    | ok v => simp
    | error e =>
      by_cases hn : n = 0 <;> simp [hn]

theorem go_calls_zero {T : Type} (fn : Nat → Except JSVal T) (b : Nat)
    (a r : Nat) (le : JSVal) (h : (fetchWithRetryGo fn b a r le).calls = 0) :
    (fetchWithRetryGo fn b a r le).result = .error le := by
  cases r with
  | zero => simp [fetchWithRetryGo]
  | succ n => exact absurd h (by have := go_calls_pos fn b a (n + 1) le (by omega); omega)

theorem go_delays {T : Type} (fn : Nat → Except JSVal T) (b : Nat) :
    ∀ (a r : Nat) (le : JSVal),
      (fetchWithRetryGo fn b a r le).delays =
        (List.range ((fetchWithRetryGo fn b a r le).calls - 1)).map
          (fun i => b * 2 ^ (a + i)) := by
  intro a r
  induction r generalizing a with
  | zero => intro le; simp [fetchWithRetryGo]
  | succ n ih =>
    intro le
    simp only [fetchWithRetryGo]
    cases fn a with
    | ok v => simp
    | error e =>
      simp only
      by_cases hn : n = 0
      · subst hn; simp [fetchWithRetryGo]
      · simp only [if_neg hn]
        have hpos := go_calls_pos fn b (a + 1) n (coerceToError e) (by omega)
        have ihs := ih (a + 1) (coerceToError e)
        set rest := fetchWithRetryGo fn b (a + 1) n (coerceToError e) with hrest
        have hc : rest.calls + 1 - 1 = (rest.calls - 1) + 1 := by omega
        rw [hc, List.range_succ_eq_map, List.map_cons, List.map_map, ihs]
        congr 1
        apply List.map_congr_left
        intro i hi
        simp only [Function.comp_apply]
        congr 2
        omega

theorem go_success {T : Type} (fn : Nat → Except JSVal T) (b : Nat) :
    ∀ (k a r : Nat) (le : JSVal) (v : T), k < r →
      (∀ i, i < k → ∃ e, fn (a + i) = .error e) → fn (a + k) = .ok v →
      (fetchWithRetryGo fn b a r le).result = .ok v ∧
        (fetchWithRetryGo fn b a r le).calls = k + 1 := by
  intro k
  induction k with
  | zero =>
    intro a r le v hk _ hok
    cases r with
    | zero => omega
    | succ n =>
      simp only [fetchWithRetryGo]
      rw [show a + 0 = a from rfl] at hok
      rw [hok]
      simp
  | succ m ih =>
    intro a r le v hk hfail hok
    cases r with
    | zero => omega
    | succ n =>
      obtain ⟨e0, he0⟩ := hfail 0 (by omega)
      simp only [fetchWithRetryGo]
      rw [show a + 0 = a from rfl] at he0
      rw [he0]
      simp only
      have hrec := ih (a + 1) n (coerceToError e0) v (by omega)
        (fun i hi => by
          obtain ⟨e, he⟩ := hfail (i + 1) (by omega)
          exact ⟨e, by rw [show a + 1 + i = a + (i + 1) by omega]; exact he⟩)
        (by rw [show a + 1 + m = a + (m + 1) by omega]; exact hok)
      by_cases hn : n = 0
      · omega
      · simp only [if_neg hn]
        exact ⟨hrec.1, by rw [hrec.2]⟩

theorem go_exhaust {T : Type} (fn : Nat → Except JSVal T) (b : Nat) :
    ∀ (r a : Nat) (le : JSVal), 1 ≤ r →
      (∀ i, i < r → ∃ e, fn (a + i) = .error e) →
      (fetchWithRetryGo fn b a r le).calls = r ∧
        ∀ e, fn (a + r - 1) = .error e →
          (fetchWithRetryGo fn b a r le).result = .error (coerceToError e) := by
  intro r
  induction r with
  | zero => intro a le h; omega
  | succ n ih =>
    intro a le _ hfail
    obtain ⟨e0, he0⟩ := hfail 0 (by omega)
    simp only [fetchWithRetryGo]
    rw [show a + 0 = a from rfl] at he0
    rw [he0]
    simp only
    by_cases hn : n = 0
    · subst hn
      simp only [if_pos rfl, fetchWithRetryGo]
      refine ⟨rfl, ?_⟩
      intro e he
      rw [show a + 1 - 1 = a + 0 by omega, show a + 0 = a from rfl] at he
      rw [he] at he0
      cases he0
      rfl
    · simp only [if_neg hn]
      have hrec := ih (a + 1) (coerceToError e0) (by omega)
        (fun i hi => by
          obtain ⟨e, he⟩ := hfail (i + 1) (by omega)
          exact ⟨e, by rw [show a + 1 + i = a + (i + 1) by omega]; exact he⟩)
      refine ⟨by rw [hrec.1], ?_⟩
      intro e he
      exact hrec.2 e (by rw [show a + 1 + n - 1 = a + (n + 1) - 1 by omega]; exact he)

end RetryLemmas

/-- Resolution of `Promise.all` over already-settled outcomes: all fulfilled
gives the ordered list of values, otherwise the call rejects with a failing
element's error (the model picks the leftmost failure; JS picks the
temporally first, which coincides whenever exactly one element fails). -/
def promiseAll {E B : Type} : List (Except E B) → Except E (List B)
  | [] => .ok []
  | .error e :: _ => .error e
  | .ok b :: rest => (promiseAll rest).map fun bs => b :: bs

/-- The spec's `fetchAllOrFail(items, fetchFn)` combinator, implemented in
the source as the `Promise.all` over `marketsToFetch.map(...)` inside
getMarketsWithHistory (api.ts lines 90-94). -/
def fetchAllOrFail {A E B : Type} (items : List A) (fetchFn : A → Except E B) :
    Except E (List B) :=
  promiseAll (items.map fetchFn)

namespace BatchLemmas

theorem promiseAll_ok_iff {E B : Type} :
    ∀ (rs : List (Except E B)) (bs : List B),
      promiseAll rs = .ok bs ↔ List.Forall₂ (fun r b => r = .ok b) rs bs := by
  intro rs
  induction rs with
  | nil =>
    intro bs
    constructor
    · intro h
      simp only [promiseAll] at h
      cases h
      exact List.Forall₂.nil
    · intro h
      cases h
      rfl
  | cons r rest ih =>
    intro bs
    constructor
    · intro h
      cases r with
      | error e => simp [promiseAll] at h
      | ok b =>
        simp only [promiseAll] at h
        cases hrest : promiseAll rest with
        | error e => rw [hrest] at h; simp [Except.map] at h
        | ok bs2 =>
          rw [hrest] at h
          simp only [Except.map] at h
          cases h
          exact List.Forall₂.cons rfl ((ih bs2).mp hrest)
    · intro h
      cases h with
      | cons hr hrest =>
        subst hr
        simp only [promiseAll]
        rw [(ih _).mpr hrest]
        rfl

theorem promiseAll_error_mem {E B : Type} :
    ∀ (rs : List (Except E B)) (e : E),
      promiseAll rs = .error e → Except.error e ∈ rs := by
  intro rs
  induction rs with
  | nil => intro e h; simp [promiseAll] at h
  | cons r rest ih =>
    intro e h
    cases r with
    | error e2 =>
      simp only [promiseAll] at h
      cases h
      exact List.mem_cons_self _ _
    | ok b =>
      simp only [promiseAll] at h
      cases hrest : promiseAll rest with
      | error e2 =>
        rw [hrest] at h
        simp only [Except.map] at h
        cases h
        exact List.mem_cons_of_mem _ (ih _ hrest)
      | ok bs => rw [hrest] at h; simp [Except.map] at h

theorem promiseAll_mem_error {E B : Type} :
    ∀ (rs : List (Except E B)), (∃ r ∈ rs, ∃ e, r = .error e) →
      ∃ e, promiseAll rs = .error e := by
  intro rs
  induction rs with
  | nil => rintro ⟨r, hr, _⟩; simp at hr
  | cons r rest ih =>
    rintro ⟨r2, hr2, e2, he2⟩
    rcases List.mem_cons.mp hr2 with h | h
    · subst h
      subst he2
      exact ⟨e2, by simp [promiseAll]⟩
    · cases r with
      | error e3 => exact ⟨e3, by simp [promiseAll]⟩
      | ok b =>
        obtain ⟨e4, he4⟩ := ih ⟨r2, h, e2, he2⟩
        exact ⟨e4, by simp [promiseAll, he4, Except.map]⟩

end BatchLemmas

/-- The backend MarketSummary shape (frontend/src/lib/types.ts lines 2-11);
prices are integer cents. -/
structure MarketSummary where
  ticker : String
  title : String
  yes_ask : Int
  yes_bid : Int
  volume : Int
  open_interest : Int
  close_time : String
  expiration_date : String
deriving DecidableEq, Repr

/-- Raw per-period price block (types.ts lines 65-72); a `none` field is a
JSON `null` (no trade recorded for that statistic).  JS numbers are
modelled as exact rationals.  Source field name `open` is a Lean keyword,
hence `openPrice`. -/
structure RawPriceData where
  openPrice : Option Rat
  high : Option Rat
  low : Option Rat
  close : Option Rat
  mean : Option Rat
  previous : Option Rat
deriving DecidableEq, Repr

/-- Raw per-period record (types.ts lines 81-88).  The `yes_ask`/`yes_bid`
sub-objects of the payload are never consulted by transformRawHistory and
are omitted from the embedding. -/
structure RawCandlestick where
  end_period_ts : Int
  open_interest : Int
  volume : Int
  price : RawPriceData
deriving DecidableEq, Repr

/-- Raw response of GET /history/(ticker)/raw (types.ts lines 90-93). -/
structure RawHistoryResponse where
  ticker : String
  candlesticks : List RawCandlestick
deriving DecidableEq, Repr

/-- Normalized candle (types.ts lines 27-34).  The source stores
`new Date(end_period_ts * 1000).toISOString()` in `date`; the embedding
keeps the millisecond timestamp itself, the ISO-8601 rendering being pure
formatting.  Source field name `open` is a Lean keyword, hence
`openPrice`. -/
structure PriceCandle where
  date : Int
  openPrice : Rat
  high : Rat
  low : Rat
  close : Rat
  volume : Int
deriving DecidableEq, Repr, Inhabited

/-- Normalized history (types.ts lines 37-44). -/
structure PriceHistory where
  ticker : String
  title : String
  days : Nat
  candles : List PriceCandle
  price_change_30d : Rat
  price_change_pct : Rat
deriving DecidableEq, Repr

/-- The per-period mapping inside transformRawHistory (api.ts lines 21-28):
`open: c.price.open ?? c.price.previous ?? 0`, `high: c.price.high ??
c.price.close ?? 0`, `low: c.price.low ?? c.price.close ?? 0`,
`close: c.price.close ?? 0`. -/
def mkCandle (c : RawCandlestick) : PriceCandle :=
  { date := c.end_period_ts * 1000
    openPrice := (c.price.openPrice.orElse fun _ => c.price.previous).getD 0
    high := (c.price.high.orElse fun _ => c.price.close).getD 0
    low := (c.price.low.orElse fun _ => c.price.close).getD 0
    close := c.price.close.getD 0
    volume := c.volume }

/-- transformRawHistory (api.ts lines 18-46): drop periods with a null
close, map the survivors to candles, and derive the first-to-last close
deltas, defined as 0 with fewer than two candles (and the percentage also 0
when the first close is 0). -/
def transformRawHistory (raw : RawHistoryResponse) : PriceHistory :=
  let candles := (raw.candlesticks.filter fun c => c.price.close.isSome).map mkCandle
  let n := candles.length
  let firstClose := (candles.getD 0 default).close
  let lastClose := (candles.getD (n - 1) default).close
  let priceChange30d : Rat := if 2 ≤ n then lastClose - firstClose else 0
  let priceChangePct : Rat :=
    if 2 ≤ n ∧ firstClose ≠ 0 then (lastClose - firstClose) / firstClose * 100 else 0
  { ticker := raw.ticker
    title := ""
    days := n
    candles := candles
    price_change_30d := priceChange30d
    price_change_pct := priceChangePct }

/-- Outcome of the single GET /markets request: HTTP `res.ok` and the parsed
JSON body. -/
structure MarketsResp where
  ok : Bool
  body : List MarketSummary

/-- Outcome of one GET /history/(ticker)/raw request: HTTP `res.ok`, the
status code, and the parsed JSON body. -/
structure HistResp where
  ok : Bool
  status : Nat
  body : RawHistoryResponse

/-- The network, as observed by one getMarketsWithHistory call: the one
markets-list response, and for each ticker the response to its `k`-th
history request (`k` counts the retry attempts, 0-based). -/
structure NetEnv where
  markets : MarketsResp
  history : String → Nat → HistResp

/-- getMarkets (api.ts lines 5-9): one fetch of /markets?limit=N; a non-ok
response throws `new Error('Failed to fetch markets')`.  The server applies
the limit; it is not re-applied client side here. -/
def getMarkets (env : NetEnv) (_limit : Nat) : Except JSVal (List MarketSummary) :=
  if env.markets.ok then .ok env.markets.body
  else .error (.errObj "Error" "Failed to fetch markets")

/-- getHistory (api.ts lines 69-74): one fetch of /history/(ticker)/raw on
its `attempt`-th invocation; a non-ok response throws an `Error` whose
message names the ticker and the status; otherwise the raw body is passed
through transformRawHistory. -/
def getHistory (env : NetEnv) (ticker : String) (attempt : Nat) :
    Except JSVal PriceHistory :=
  let r := env.history ticker attempt
  if r.ok then .ok (transformRawHistory r.body)
  else
    .error (.errObj "Error"
      ("Failed to fetch history for " ++ ticker ++ " (status: " ++ toString r.status ++ ")"))

/-- Observable trace of one getMarketsWithHistory call. -/
structure BatchTrace where
  result : Except JSVal (List (MarketSummary × PriceHistory))
  marketsCalls : Nat
  historyTraces : List (String × RetryTrace PriceHistory)

/-- getMarketsWithHistory (api.ts lines 84-96): one un-retried getMarkets,
`slice(0, limit)`, then `Promise.all` over
`fetchWithRetry(() => getHistory(m.ticker), 3, 1000)` per market, zipping
markets with their histories on full success.  `marketsCalls` counts the
single unconditional getMarkets invocation; `historyTraces` records each
per-ticker retry trace. -/
def getMarketsWithHistory (env : NetEnv) (limit : Nat) : BatchTrace :=
  match getMarkets env limit with
  | .error e => ⟨.error e, 1, []⟩
  | .ok markets =>
    let marketsToFetch := markets.take limit
    let traces := marketsToFetch.map fun m =>
      (m.ticker, fetchWithRetry (getHistory env m.ticker) 3 1000)
    match fetchAllOrFail marketsToFetch
        (fun m => (fetchWithRetry (getHistory env m.ticker) 3 1000).result) with
    | .error e => ⟨.error e, 1, traces⟩
    | .ok hs => ⟨.ok (marketsToFetch.zip hs), 1, traces⟩

/-- True exactly when a batch call failed with the spec's
`AggregateFetchError` shape (see `JSVal.aggregate`). -/
def isAggregateFailure (t : BatchTrace) : Bool :=
  match t.result with
  | .error (.aggregate _ _) => true
  | _ => false

/-- Modelled from the spec: the canonical Quote entity of spec section 3
(best yes bid/ask in integer cents).  The DecisionMetricsEngine
(backend/src/calcuations.py) is absent from src/, so this entity and
computeMetrics below are reconstructed from the specification text alone. -/
structure Quote where
  ticker : String
  title : String
  yes_bid : Int
  yes_ask : Int
  volume : Int
  open_interest : Int
deriving DecidableEq, Repr

/-- Modelled from the spec: the error taxonomy entry raised by
computeMetrics on an out-of-range probability. -/
inductive MetricsError where
  | invalidInput
deriving DecidableEq, Repr

/-- Modelled from the spec: the DecisionMetrics bundle of spec section 3. -/
structure DecisionMetrics where
  spread_cost : Rat
  true_probability : Rat
  alpha : Rat
  expected_value : Rat
  kelly_fraction : Rat
deriving DecidableEq, Repr

/-- Modelled from the spec: computeMetrics of spec section 4.5
(backend/src/calcuations.py is absent from src/).  trueProbability outside
[0,1] fails with InvalidInputError; spreadCost = ask − bid;
marketImpliedProbability = (bid+ask)/2/100; alpha = (p − implied)×100; with
p ≥ implied the YES side is favored (EV of buying YES at the ask, net odds
b = (100−ask)/ask), otherwise the NO side (EV of buying NO at 100−bid, net
odds b = bid/(100−bid)), the NO side treated symmetrically to YES per the
design note of section 9; the Kelly fraction f = (q×(b+1) − 1)/b of the
favored side's probability q is clamped to [0,1]. -/
def computeMetrics (q : Quote) (p : Rat) : Except MetricsError DecisionMetrics :=
  if p < 0 ∨ 1 < p then .error .invalidInput
  else
    let bid : Rat := q.yes_bid
    let ask : Rat := q.yes_ask
    let spreadCost := ask - bid
    let implied := (bid + ask) / 2 / 100
    let alpha := (p - implied) * 100
    if implied ≤ p then
      let ev := p * (100 - ask) - (1 - p) * ask
      let b := (100 - ask) / ask
      let rawKelly := (p * (b + 1) - 1) / b
      .ok ⟨spreadCost, p, alpha, ev, min 1 (max 0 rawKelly)⟩
    else
      let noPrice := 100 - bid
      let ev := (1 - p) * (100 - noPrice) - p * noPrice
      let b := (100 - noPrice) / noPrice
      let rawKelly := ((1 - p) * (b + 1) - 1) / b
      .ok ⟨spreadCost, p, alpha, ev, min 1 (max 0 rawKelly)⟩

/-- A wrapped operation that fails its first two attempts and succeeds on
the third, used to exercise the retry policy. -/
def fnThirdTry : Nat → Except JSVal Nat := fun k =>
  if k < 2 then .error (.errObj "Error" "upstream 500") else .ok 42

/-- C2 (amended).  fetchWithRetry makes at most maxRetries total attempts,
awaiting baseDelay * 2 ^ attemptIndex before each re-attempt (attemptIndex
of the failed attempt, starting at 0); success on 0-based attempt k below
maxRetries returns that value after exactly k+1 calls; when every attempt
fails it makes exactly maxRetries calls and propagates the final attempt's
failure after the `instanceof Error` coercion — unchanged when that failure
is an Error object, otherwise replaced by an Error carrying its string
form (the coercion is why the original claim's "unchanged, not wrapped"
does not hold for non-Error throwables). -/
theorem retry_policy_attempts_and_backoff {T : Type}
    (fn : Nat → Except JSVal T) (maxRetries : Int) (baseDelay : Nat) :
    (fetchWithRetry fn maxRetries baseDelay).calls ≤ maxRetries.toNat
    ∧ (fetchWithRetry fn maxRetries baseDelay).delays =
        (List.range ((fetchWithRetry fn maxRetries baseDelay).calls - 1)).map
          (fun i => baseDelay * 2 ^ i)
    ∧ (∀ k v, k < maxRetries.toNat → (∀ i, i < k → ∃ e, fn i = .error e) →
        fn k = .ok v →
        (fetchWithRetry fn maxRetries baseDelay).result = .ok v ∧
          (fetchWithRetry fn maxRetries baseDelay).calls = k + 1)
    ∧ ((∀ i, i < maxRetries.toNat → ∃ e, fn i = .error e) → 1 ≤ maxRetries.toNat →
        (fetchWithRetry fn maxRetries baseDelay).calls = maxRetries.toNat ∧
          ∀ e, fn (maxRetries.toNat - 1) = .error e →
            (fetchWithRetry fn maxRetries baseDelay).result
              = .error (coerceToError e)) := by
  unfold fetchWithRetry
  refine ⟨RetryLemmas.go_calls_le fn baseDelay 0 maxRetries.toNat .jsNull, ?_, ?_, ?_⟩
  · have h := RetryLemmas.go_delays fn baseDelay 0 maxRetries.toNat .jsNull
    simpa using h
  · intro k v hk hfail hok
    exact RetryLemmas.go_success fn baseDelay k 0 maxRetries.toNat .jsNull v hk
      (fun i hi => by simpa using hfail i hi) (by simpa using hok)
  · intro hfail hpos
    have h := RetryLemmas.go_exhaust fn baseDelay maxRetries.toNat 0 .jsNull hpos
      (fun i hi => by simpa using hfail i hi)
    exact ⟨h.1, fun e he => h.2 e (by simpa using he)⟩

/-- Witness for C2: succeeding on the 3rd of maxRetries = 5 attempts
returns that value after exactly 3 calls. -/
theorem retry_policy_attempts_and_backoff_witness :
    2 < (5 : Int).toNat ∧ fnThirdTry 2 = .ok 42
    ∧ (fetchWithRetry fnThirdTry 5 1000).result = .ok 42
    ∧ (fetchWithRetry fnThirdTry 5 1000).calls = 3 :=
  ⟨by decide, by decide,
    ((retry_policy_attempts_and_backoff fnThirdTry 5 1000).2.2.1 2 42 (by decide)
      (fun i hi => ⟨.errObj "Error" "upstream 500", by unfold fnThirdTry; rw [if_pos hi]⟩)
      (by decide)).1,
    ((retry_policy_attempts_and_backoff fnThirdTry 5 1000).2.2.1 2 42 (by decide)
      (fun i hi => ⟨.errObj "Error" "upstream 500", by unfold fnThirdTry; rw [if_pos hi]⟩)
      (by decide)).2⟩

/-- C2 counterexample: an operation whose only attempt throws the
non-Error value "boom"; fetchWithRetry does not propagate it unchanged, it
throws `new Error(String("boom"))` instead. -/
theorem retry_nonError_failure_wrapped :
    (fetchWithRetry (fun _ => (Except.error (JSVal.str "boom") : Except JSVal Nat))
        1 0).result = Except.error (JSVal.errObj "Error" "boom")
    ∧ (fetchWithRetry (fun _ => (Except.error (JSVal.str "boom") : Except JSVal Nat))
        1 0).result ≠ Except.error (JSVal.str "boom") := by decide

/-- C6 (amended).  fetchWithRetry does not classify failures: a failure
with any Error name whatsoever — including "NotFoundError" and
"InvalidInputError" — is retried exactly like an UpstreamError, rather than
surfaced immediately; here a first-attempt failure of arbitrary
classification is followed by a second call whenever attempts remain. -/
theorem retry_ignores_error_classification (nm msg : String) (v : Nat)
    (maxRetries : Int) (baseDelay : Nat) (h2 : 2 ≤ maxRetries.toNat) :
    (fetchWithRetry (fun k => if k = 0 then .error (.errObj nm msg) else .ok v)
        maxRetries baseDelay).result = .ok v
    ∧ (fetchWithRetry (fun k => if k = 0 then .error (.errObj nm msg) else .ok v)
        maxRetries baseDelay).calls = 2 := by
  unfold fetchWithRetry
  have h := RetryLemmas.go_success
    (fun k => if k = 0 then .error (.errObj nm msg) else .ok v) baseDelay
    1 0 maxRetries.toNat .jsNull v (by omega)
    (fun i hi => ⟨.errObj nm msg, by simp [show i = 0 by omega]⟩)
    (by simp)
  exact ⟨h.1, h.2⟩

/-- Witness for C6 (amended): a NotFoundError-classified first failure is
retried and the second attempt's value is returned. -/
theorem retry_ignores_error_classification_witness :
    2 ≤ (3 : Int).toNat
    ∧ (fetchWithRetry
        (fun k => if k = 0 then .error (.errObj "NotFoundError" "missing") else .ok 7)
        3 5).result = .ok 7 :=
  ⟨by decide,
    (retry_ignores_error_classification "NotFoundError" "missing" 7 3 5 (by decide)).1⟩

/-- An operation failing once with a NotFoundError-named Error, then
succeeding. -/
def notFoundOnce : Nat → Except JSVal Nat := fun k =>
  if k = 0 then .error (.errObj "NotFoundError" "no such ticker") else .ok 7

/-- C6 counterexample: a failure classified NotFoundError on the first
attempt is retried (a second call is made) and is not surfaced, contrary to
the claim that such failures are never retried and surface immediately. -/
theorem notFoundError_is_retried :
    (fetchWithRetry notFoundOnce 3 0).calls = 2
    ∧ (fetchWithRetry notFoundOnce 3 0).result = .ok 7
    ∧ (fetchWithRetry notFoundOnce 3 0).result
        ≠ .error (.errObj "NotFoundError" "no such ticker") := by decide

/-- C9.  Called with maxRetries ≤ 0, fetchWithRetry never invokes the
wrapped function and throws the initial `lastError = null` — not an Error
object; conversely a thrown Error object implies at least one attempt was
made. -/
theorem retry_nonpositive_attempts_throws_null {T : Type}
    (fn : Nat → Except JSVal T) (maxRetries : Int) (baseDelay : Nat) :
    (maxRetries ≤ 0 →
      (fetchWithRetry fn maxRetries baseDelay).calls = 0
        ∧ (fetchWithRetry fn maxRetries baseDelay).result = .error .jsNull)
    ∧ ∀ nm msg, (fetchWithRetry fn maxRetries baseDelay).result
        = .error (.errObj nm msg) →
        1 ≤ (fetchWithRetry fn maxRetries baseDelay).calls := by
  constructor
  · intro h
    have h0 : maxRetries.toNat = 0 := Int.toNat_of_nonpos h
    simp [fetchWithRetry, h0, fetchWithRetryGo]
  · intro nm msg h
    by_cases h0 : maxRetries.toNat = 0
    · rw [fetchWithRetry, h0] at h
      simp [fetchWithRetryGo] at h
    · exact RetryLemmas.go_calls_pos fn baseDelay 0 maxRetries.toNat .jsNull (by omega)

/-- Witness for C9: with maxRetries = 0 the function is never called and
null is thrown; an always-failing operation given 2 attempts yields an
Error after at least one call. -/
theorem retry_nonpositive_attempts_throws_null_witness :
    ((0 : Int) ≤ 0)
    ∧ (fetchWithRetry (fun _ => (Except.ok 1 : Except JSVal Nat)) 0 7).calls = 0
    ∧ (fetchWithRetry (fun _ => (Except.ok 1 : Except JSVal Nat)) 0 7).result
        = .error .jsNull
    ∧ 1 ≤ (fetchWithRetry
        (fun _ => (Except.error (JSVal.errObj "Error" "x") : Except JSVal Nat)) 2 7).calls :=
  ⟨by decide,
    ((retry_nonpositive_attempts_throws_null
      (fun _ => (Except.ok 1 : Except JSVal Nat)) 0 7).1 (by decide)).1,
    ((retry_nonpositive_attempts_throws_null
      (fun _ => (Except.ok 1 : Except JSVal Nat)) 0 7).1 (by decide)).2,
    (retry_nonpositive_attempts_throws_null
      (fun _ => (Except.error (JSVal.errObj "Error" "x") : Except JSVal Nat)) 2 7).2
      "Error" "x" (by decide)⟩

/-- C1.  The batch combinator is all-or-nothing: it returns `ok bs` exactly
when each item's fetch succeeds pointwise and in the input order (so the
output order is the input order), and the existence of any failing item
forces the whole call to fail, delivering no partial results; the third
conjunct records that getMarketsWithHistory is this combinator applied to
the sliced markets list with retried history fetches, its success zipping
markets with their histories positionally. -/
theorem fetchAllOrFail_all_or_nothing :
    (∀ {A E B : Type} (items : List A) (fetchFn : A → Except E B) (bs : List B),
        fetchAllOrFail items fetchFn = .ok bs ↔
          List.Forall₂ (fun a b => fetchFn a = .ok b) items bs)
    ∧ (∀ {A E B : Type} (items : List A) (fetchFn : A → Except E B),
        (∃ a ∈ items, ∃ e, fetchFn a = .error e) →
          ∃ e, fetchAllOrFail items fetchFn = .error e)
    ∧ (∀ (env : NetEnv) (limit : Nat) (markets : List MarketSummary),
        getMarkets env limit = .ok markets →
        (getMarketsWithHistory env limit).result =
          Except.map (fun hs => (markets.take limit).zip hs)
            (fetchAllOrFail (markets.take limit)
              (fun m => (fetchWithRetry (getHistory env m.ticker) 3 1000).result))) := by
  refine ⟨?_, ?_, ?_⟩
  · intro A E B items fetchFn bs
    rw [fetchAllOrFail, BatchLemmas.promiseAll_ok_iff]
    exact List.forall₂_map_left_iff
  · intro A E B items fetchFn ⟨a, ha, e, he⟩
    exact BatchLemmas.promiseAll_mem_error _
      ⟨fetchFn a, List.mem_map_of_mem fetchFn ha, e, he⟩
  · intro env limit markets hmk
    simp only [getMarketsWithHistory, hmk]
    cases h : fetchAllOrFail (markets.take limit)
        (fun m => (fetchWithRetry (getHistory env m.ticker) 3 1000).result) with
    | error e => simp [Except.map]
    | ok hs => simp [Except.map]

/-- Witness for C1: a two-item batch whose second item fails produces a
failure, not partial results; a fully successful two-item batch returns
both results in input order. -/
theorem fetchAllOrFail_all_or_nothing_witness :
    ((2 : Nat) ∈ [1, 2] ∧ (fun a => if a = 2 then (Except.error "down" : Except String Nat)
        else .ok a) 2 = .error "down")
    ∧ (fetchAllOrFail [1, 2]
        (fun a => if a = 2 then (Except.error "down" : Except String Nat) else .ok a)).isOk
        = false
    ∧ fetchAllOrFail [1, 2] (fun a => (Except.ok (a + 10) : Except String Nat))
        = .ok [11, 12] :=
  ⟨⟨by decide, by decide⟩,
    by
      obtain ⟨e, he⟩ := fetchAllOrFail_all_or_nothing.2.1 [1, 2]
        (fun a => if a = 2 then (Except.error "down" : Except String Nat) else .ok a)
        ⟨2, by decide, "down", by decide⟩
      rw [he]
      rfl,
    (fetchAllOrFail_all_or_nothing.1 [1, 2]
        (fun a => (Except.ok (a + 10) : Except String Nat)) [11, 12]).mpr
      (List.Forall₂.cons rfl (List.Forall₂.cons rfl List.Forall₂.nil))⟩

/-- C5 (amended).  When any item's history fetch ultimately fails, the
whole getMarketsWithHistory call fails with that failing item's own
error value — there is no AggregateFetchError wrapper in the code — and
the successful siblings' results appear nowhere in the failure (the result
is a bare error, carrying no history list); the second conjunct shows the
propagated history-fetch error itself identifies the ticker in its
message. -/
theorem batch_failure_carries_item_error :
    (∀ (env : NetEnv) (limit : Nat) (e : JSVal),
        env.markets.ok = true →
        (getMarketsWithHistory env limit).result = .error e →
        ∃ m ∈ env.markets.body.take limit,
          (fetchWithRetry (getHistory env m.ticker) 3 1000).result = .error e)
    ∧ (∀ (env : NetEnv) (t : String) (k : Nat),
        (env.history t k).ok = false →
        getHistory env t k = .error (.errObj "Error"
          ("Failed to fetch history for " ++ t ++ " (status: "
            ++ toString (env.history t k).status ++ ")"))) := by
  constructor
  · intro env limit e hok hres
    have hmk : getMarkets env limit = .ok env.markets.body := by
      simp [getMarkets, hok]
    simp only [getMarketsWithHistory, hmk] at hres
    cases hall : fetchAllOrFail (env.markets.body.take limit)
        (fun m => (fetchWithRetry (getHistory env m.ticker) 3 1000).result) with
    | ok hs => rw [hall] at hres; simp at hres
    | error e2 =>
      rw [hall] at hres
      simp only [Except.error.injEq] at hres
      subst hres
      have hmem := BatchLemmas.promiseAll_error_mem _ _ hall
      obtain ⟨m, hm, hfm⟩ := List.mem_map.mp hmem
      exact ⟨m, hm, hfm⟩
  · intro env t k h
    simp [getHistory, h]

/-- Markets used by the concrete batch scenarios. -/
def msA : MarketSummary := ⟨"A", "Market A", 50, 40, 100, 10, "", ""⟩

/-- Markets used by the concrete batch scenarios. -/
def msB : MarketSummary := ⟨"B", "Market B", 60, 55, 200, 20, "", ""⟩

/-- Markets used by the concrete batch scenarios. -/
def msC : MarketSummary := ⟨"C", "Market C", 30, 20, 300, 30, "", ""⟩

/-- A network where the markets list is [A, B, C], every history request
for B fails with HTTP 500 on all attempts, and A's and C's histories
succeed with an empty candlestick set. -/
def envBFails : NetEnv :=
  { markets := ⟨true, [msA, msB, msC]⟩
    history := fun t _ =>
      if t = "B" then ⟨false, 500, ⟨t, []⟩⟩ else ⟨true, 200, ⟨t, []⟩⟩ }

/-- C5 counterexample: with B's fetch failing after its retries, the batch
fails with B's own plain Error (its message naming the ticker), which is
exactly the error B's retry wrapper produced — not an AggregateFetchError
wrapping it. -/
theorem batch_failure_not_aggregate :
    (getMarketsWithHistory envBFails 10).result
        = .error (.errObj "Error" "Failed to fetch history for B (status: 500)")
    ∧ isAggregateFailure (getMarketsWithHistory envBFails 10) = false
    ∧ (fetchWithRetry (getHistory envBFails "B") 3 1000).result
        = .error (.errObj "Error" "Failed to fetch history for B (status: 500)") := by
  decide

/-- Witness for C5 (amended): a failing history response produces the
ticker-identifying Error. -/
theorem batch_failure_carries_item_error_witness :
    (envBFails.history "B" 0).ok = false
    ∧ getHistory envBFails "B" 0 = .error (.errObj "Error"
        ("Failed to fetch history for " ++ "B" ++ " (status: "
          ++ toString (envBFails.history "B" 0).status ++ ")")) :=
  ⟨by decide, batch_failure_carries_item_error.2 envBFails "B" 0 (by decide)⟩

/-- C10.  getMarketsWithHistory issues the markets-list fetch exactly once
and never retries it: a failed markets fetch immediately fails the whole
call with the markets error and no history fetch happens at all; only the
per-ticker history fetches are wrapped in fetchWithRetry with 3 attempts
and a 1000 ms base delay, so each ticker sees at most 3 calls with backoff
delays 1000 * 2 ^ i. -/
theorem batch_markets_once_histories_retried (env : NetEnv) (limit : Nat) :
    (getMarketsWithHistory env limit).marketsCalls = 1
    ∧ (env.markets.ok = false →
        (getMarketsWithHistory env limit).result
            = .error (.errObj "Error" "Failed to fetch markets")
          ∧ (getMarketsWithHistory env limit).historyTraces = [])
    ∧ (env.markets.ok = true →
        (getMarketsWithHistory env limit).historyTraces
          = (env.markets.body.take limit).map fun m =>
              (m.ticker, fetchWithRetry (getHistory env m.ticker) 3 1000))
    ∧ ∀ pr ∈ (getMarketsWithHistory env limit).historyTraces,
        pr.2.calls ≤ 3
        ∧ pr.2.delays = (List.range (pr.2.calls - 1)).map fun i => 1000 * 2 ^ i := by
  have hdel : ∀ pr ∈ (env.markets.body.take limit).map (fun m =>
      (m.ticker, fetchWithRetry (getHistory env m.ticker) 3 1000)),
      pr.2.calls ≤ 3
      ∧ pr.2.delays = (List.range (pr.2.calls - 1)).map fun i => 1000 * 2 ^ i := by
    intro pr hpr
    obtain ⟨m, hm, rfl⟩ := List.mem_map.mp hpr
    constructor
    · have h := RetryLemmas.go_calls_le (getHistory env m.ticker) 1000 0 (3 : Int).toNat .jsNull
      simpa [fetchWithRetry] using h
    · have h := RetryLemmas.go_delays (getHistory env m.ticker) 1000 0 (3 : Int).toNat .jsNull
      simpa [fetchWithRetry] using h
  cases hok : env.markets.ok with
  | false =>
    have hmk : getMarkets env limit = .error (.errObj "Error" "Failed to fetch markets") := by
      simp [getMarkets, hok]
    refine ⟨by simp [getMarketsWithHistory, hmk], fun _ => ?_, fun h => ?_, fun pr hpr => ?_⟩
    · exact ⟨by simp [getMarketsWithHistory, hmk], by simp [getMarketsWithHistory, hmk]⟩
    · simp at h
    · simp [getMarketsWithHistory, hmk] at hpr
  | true =>
    have hmk : getMarkets env limit = .ok env.markets.body := by
      simp [getMarkets, hok]
    cases hall : fetchAllOrFail (env.markets.body.take limit)
        (fun m => (fetchWithRetry (getHistory env m.ticker) 3 1000).result) with
    | error e =>
      refine ⟨by simp [getMarketsWithHistory, hmk, hall], fun h => ?_, fun _ => ?_,
        fun pr hpr => ?_⟩
      · simp at h
      · simp [getMarketsWithHistory, hmk, hall]
      · exact hdel pr (by simpa [getMarketsWithHistory, hmk, hall] using hpr)
    | ok hs =>
      refine ⟨by simp [getMarketsWithHistory, hmk, hall], fun h => ?_, fun _ => ?_,
        fun pr hpr => ?_⟩
      · simp at h
      · simp [getMarketsWithHistory, hmk, hall]
      · exact hdel pr (by simpa [getMarketsWithHistory, hmk, hall] using hpr)

/-- Witness for C10: a concrete environment with a successful markets
fetch — one markets call, history traces exactly the per-ticker retried
fetches. -/
theorem batch_markets_once_histories_retried_witness :
    envBFails.markets.ok = true
    ∧ (getMarketsWithHistory envBFails 10).marketsCalls = 1
    ∧ (getMarketsWithHistory envBFails 10).historyTraces
        = (envBFails.markets.body.take 10).map fun m =>
            (m.ticker, fetchWithRetry (getHistory envBFails m.ticker) 3 1000) :=
  ⟨rfl, (batch_markets_once_histories_retried envBFails 10).1,
    (batch_markets_once_histories_retried envBFails 10).2.2.1 rfl⟩

/-- C3.  transformRawHistory keeps exactly the periods with a present
close; change30d is the last surviving candle's close minus the first's
(when at least two survive), changePct that ratio times 100 (when
additionally the first close is nonzero); with fewer than two candles both
change figures are 0, and a zero first close forces changePct to 0. -/
theorem transformRawHistory_change_computation (raw : RawHistoryResponse) :
    (transformRawHistory raw).candles
        = (raw.candlesticks.filter fun c => c.price.close.isSome).map mkCandle
    ∧ (2 ≤ (transformRawHistory raw).candles.length →
        (transformRawHistory raw).price_change_30d
          = ((transformRawHistory raw).candles.getD
                ((transformRawHistory raw).candles.length - 1) default).close
            - ((transformRawHistory raw).candles.getD 0 default).close)
    ∧ (2 ≤ (transformRawHistory raw).candles.length →
        ((transformRawHistory raw).candles.getD 0 default).close ≠ 0 →
        (transformRawHistory raw).price_change_pct
          = (((transformRawHistory raw).candles.getD
                ((transformRawHistory raw).candles.length - 1) default).close
              - ((transformRawHistory raw).candles.getD 0 default).close)
            / ((transformRawHistory raw).candles.getD 0 default).close * 100)
    ∧ ((transformRawHistory raw).candles.length < 2 →
        (transformRawHistory raw).price_change_30d = 0
          ∧ (transformRawHistory raw).price_change_pct = 0)
    ∧ (((transformRawHistory raw).candles.getD 0 default).close = 0 →
        (transformRawHistory raw).price_change_pct = 0) := by
  unfold transformRawHistory
  dsimp only
  set cs := (raw.candlesticks.filter fun c => c.price.close.isSome).map mkCandle with hcs
  refine ⟨rfl, fun h2 => ?_, fun h2 hne => ?_, fun hlt => ?_, fun h0 => ?_⟩
  · rw [if_pos h2]
  · rw [if_pos ⟨h2, hne⟩]
  · constructor
    · rw [if_neg (by omega)]
    · rw [if_neg (by rintro ⟨hc, _⟩; omega)]
  · by_cases h2 : 2 ≤ cs.length
    · rw [if_neg (by rintro ⟨_, hne⟩; exact hne h0)]
    · rw [if_neg (by rintro ⟨hc, _⟩; exact h2 hc)]

/-- The spec's end-to-end history scenario: close null on day 1, then 30,
then 36. -/
def rawExample : RawHistoryResponse :=
  ⟨"EX",
    [⟨1, 0, 5, ⟨none, none, none, none, none, none⟩⟩,
     ⟨2, 0, 6, ⟨none, none, none, some 30, none, none⟩⟩,
     ⟨3, 0, 7, ⟨none, none, none, some 36, none, none⟩⟩]⟩

/-- Witness for C3: the null-close record is dropped, two candles survive,
change30d = 6 and changePct = 20. -/
theorem transformRawHistory_change_computation_witness :
    (transformRawHistory rawExample).candles.length = 2
    ∧ (transformRawHistory rawExample).price_change_30d = 6
    ∧ (transformRawHistory rawExample).price_change_pct = 20 :=
  ⟨by decide,
    by
      rw [(transformRawHistory_change_computation rawExample).2.1 (by decide)]
      show (36 : Rat) - 30 = 6
      norm_num,
    by
      rw [(transformRawHistory_change_computation rawExample).2.2.1 (by decide) (by decide)]
      show ((36 : Rat) - 30) / 30 * 100 = 20
      norm_num⟩

/-- C8.  Each surviving period's candle takes its recorded open, falling
back to the period's `previous` field (the previous period's close as
reported by the API) and then to 0; high and low fall back to the period's
own close; and close, present on every survivor of the filter, is carried
over as is. -/
theorem candle_field_fallbacks (raw : RawHistoryResponse) :
    (transformRawHistory raw).candles
        = (raw.candlesticks.filter fun c => c.price.close.isSome).map mkCandle
    ∧ ∀ c ∈ raw.candlesticks.filter fun c => c.price.close.isSome,
        (∀ v, c.price.openPrice = some v → (mkCandle c).openPrice = v)
        ∧ (c.price.openPrice = none → ∀ p, c.price.previous = some p →
            (mkCandle c).openPrice = p)
        ∧ (c.price.openPrice = none → c.price.previous = none →
            (mkCandle c).openPrice = 0)
        ∧ (∀ v, c.price.high = some v → (mkCandle c).high = v)
        ∧ (∀ v, c.price.low = some v → (mkCandle c).low = v)
        ∧ ∃ cl, c.price.close = some cl ∧ (mkCandle c).close = cl
            ∧ (c.price.high = none → (mkCandle c).high = cl)
            ∧ (c.price.low = none → (mkCandle c).low = cl) := by
  constructor
  · rfl
  intro c hc
  have hsome : c.price.close.isSome := (List.mem_filter.mp hc).2
  obtain ⟨cl, hcl⟩ := Option.isSome_iff_exists.mp hsome
  refine ⟨?_, ?_, ?_, ?_, ?_, cl, hcl, ?_, ?_, ?_⟩
  · intro v hv; simp [mkCandle, hv, Option.orElse]
  · intro h1 p h2; simp [mkCandle, h1, h2, Option.orElse]
  · intro h1 h2; simp [mkCandle, h1, h2, Option.orElse]
  · intro v hv; simp [mkCandle, hv, Option.orElse]
  · intro v hv; simp [mkCandle, hv, Option.orElse]
  · simp [mkCandle, hcl]
  · intro hh; simp [mkCandle, hh, hcl, Option.orElse]
  · intro hl; simp [mkCandle, hl, hcl, Option.orElse]

/-- A period with a missing open but a recorded previous close, and missing
high/low. -/
def cFB : RawCandlestick := ⟨1, 0, 1, ⟨none, none, none, some 25, none, some 22⟩⟩

/-- A raw history containing exactly `cFB`. -/
def rawFallbacks : RawHistoryResponse := ⟨"FB", [cFB]⟩

/-- Witness for C8: the open falls back to the previous close 22, high and
low fall back to the close 25, and the close is carried over. -/
theorem candle_field_fallbacks_witness :
    cFB.price.openPrice = none ∧ cFB.price.previous = some 22
    ∧ (mkCandle cFB).openPrice = 22
    ∧ (mkCandle cFB).high = 25 ∧ (mkCandle cFB).low = 25 ∧ (mkCandle cFB).close = 25 :=
  ⟨rfl, rfl,
    ((candle_field_fallbacks rawFallbacks).2 cFB (by decide)).2.1 rfl 22 rfl,
    by decide, by decide, by decide⟩

/-- The spec's end-to-end quote: bid 40, ask 45. -/
def specQuote : Quote := ⟨"SPEC", "Spec quote", 40, 45, 1000, 100⟩

/-- C4 (spec-modelled).  computeMetrics fails with InvalidInputError for
every trueProbability outside [0,1] and succeeds on all of [0,1] — no
clamping; in particular it succeeds at exactly 0 and exactly 1 and fails at
-0.0001 and 1.0001. -/
theorem computeMetrics_probability_range :
    (∀ (q : Quote) (p : Rat),
        ((p < 0 ∨ 1 < p) → computeMetrics q p = .error .invalidInput)
        ∧ (0 ≤ p → p ≤ 1 → (computeMetrics q p).isOk = true))
    ∧ (computeMetrics specQuote 0).isOk = true
    ∧ (computeMetrics specQuote 1).isOk = true
    ∧ computeMetrics specQuote (-(1 / 10000)) = .error .invalidInput
    ∧ computeMetrics specQuote (10001 / 10000) = .error .invalidInput := by
  have main : ∀ (q : Quote) (p : Rat),
      ((p < 0 ∨ 1 < p) → computeMetrics q p = .error .invalidInput)
      ∧ (0 ≤ p → p ≤ 1 → (computeMetrics q p).isOk = true) := by
    intro q p
    constructor
    · intro h
      unfold computeMetrics
      rw [if_pos h]
    · intro h0 h1
      unfold computeMetrics
      rw [if_neg (by push_neg; exact ⟨h0, h1⟩)]
      dsimp only
      split <;> rfl
  exact ⟨main,
    (main specQuote 0).2 (by norm_num) (by norm_num),
    (main specQuote 1).2 (by norm_num) (by norm_num),
    (main specQuote _).1 (Or.inl (by norm_num)),
    (main specQuote _).1 (Or.inr (by norm_num))⟩

/-- Witness for C4: an in-range probability succeeds, an out-of-range one
fails with InvalidInputError. -/
theorem computeMetrics_probability_range_witness :
    (0 : Rat) ≤ 1 / 2 ∧ (1 / 2 : Rat) ≤ 1
    ∧ (computeMetrics specQuote (1 / 2)).isOk = true
    ∧ ((3 / 2 : Rat) < 0 ∨ (1 : Rat) < 3 / 2)
    ∧ computeMetrics specQuote (3 / 2) = .error .invalidInput :=
  ⟨by norm_num, by norm_num,
    (computeMetrics_probability_range.1 specQuote (1 / 2)).2 (by norm_num) (by norm_num),
    Or.inr (by norm_num),
    (computeMetrics_probability_range.1 specQuote (3 / 2)).1 (Or.inr (by norm_num))⟩

/-- C7 (amended, spec-modelled).  Every metrics bundle computeMetrics
returns has its Kelly fraction clamped into [0,1]; and on the YES side
(trueProbability at or above the market-implied probability) a nonpositive
raw Kelly — which with 0 < ask ≤ 100 is exactly p ≤ ask/100 — reports as 0,
never negative.  The original claim's "probability strictly below implied
yields 0" fails because such a probability selects the NO side, whose
Kelly fraction may be positive (see the counterexample). -/
theorem kelly_fraction_clamped :
    (∀ (q : Quote) (p : Rat) (d : DecisionMetrics), computeMetrics q p = .ok d →
        0 ≤ d.kelly_fraction ∧ d.kelly_fraction ≤ 1)
    ∧ (∀ (q : Quote) (p : Rat) (d : DecisionMetrics), computeMetrics q p = .ok d →
        0 < (q.yes_ask : Rat) → (q.yes_ask : Rat) ≤ 100 →
        ((q.yes_bid : Rat) + (q.yes_ask : Rat)) / 2 / 100 ≤ p →
        p * 100 ≤ (q.yes_ask : Rat) →
        d.kelly_fraction = 0) := by
  constructor
  · intro q p d h
    unfold computeMetrics at h
    split at h
    · simp at h
    · dsimp only at h
      split at h <;>
      · rw [Except.ok.injEq] at h
        subst h
        exact ⟨le_min (by norm_num) (le_max_left 0 _), min_le_left 1 _⟩
  · intro q p d h hask0 hask100 himp hple
    unfold computeMetrics at h
    split at h
    · simp at h
    · dsimp only at h
      split at h
      · rw [Except.ok.injEq] at h
        subst h
        dsimp only
        have haskne : (q.yes_ask : Rat) ≠ 0 := ne_of_gt hask0
        have hb : (0 : Rat) ≤ (100 - (q.yes_ask : Rat)) / (q.yes_ask : Rat) :=
          div_nonneg (by linarith) (le_of_lt hask0)
        have hb1 : (100 - (q.yes_ask : Rat)) / (q.yes_ask : Rat) + 1
            = 100 / (q.yes_ask : Rat) := by
          field_simp
        have h1 : p * (100 / (q.yes_ask : Rat)) ≤ 1 := by
          have hre : p * (100 / (q.yes_ask : Rat)) = p * 100 / (q.yes_ask : Rat) := by
            ring
          rw [hre, div_le_one hask0]
          exact hple
        have hnum : p * ((100 - (q.yes_ask : Rat)) / (q.yes_ask : Rat) + 1) - 1 ≤ 0 := by
          rw [hb1]; linarith
        have hraw : (p * ((100 - (q.yes_ask : Rat)) / (q.yes_ask : Rat) + 1) - 1)
            / ((100 - (q.yes_ask : Rat)) / (q.yes_ask : Rat)) ≤ 0 :=
          div_nonpos_iff.mpr (Or.inr ⟨hnum, hb⟩)
        rw [max_eq_left hraw]
        exact min_eq_right (by norm_num)
      · rename_i hnc
        exact absurd himp hnc

/-- A quote with bid = ask = 50: market-implied probability 1/2. -/
def qEven : Quote := ⟨"EVEN", "Even odds", 50, 50, 100, 10⟩

/-- C7 counterexample: trueProbability 2/5 is strictly below the implied
probability 1/2, yet computeMetrics selects the NO side and returns a
Kelly fraction of 1/5, not 0. -/
theorem negative_edge_kelly_positive :
    (2 / 5 : Rat) < ((qEven.yes_bid : Rat) + (qEven.yes_ask : Rat)) / 2 / 100
    ∧ computeMetrics qEven (2 / 5) = .ok ⟨0, 2 / 5, -10, 10, 1 / 5⟩
    ∧ (1 / 5 : Rat) ≠ 0 := by
  refine ⟨by norm_num [qEven], ?_, by norm_num⟩
  unfold computeMetrics
  rw [if_neg (by norm_num)]
  dsimp only
  rw [if_neg (by norm_num [qEven])]
  norm_num [qEven, min_def, max_def]

/-- A quote with bid = ask = 100, an easy closed point of the YES branch. -/
def qFull : Quote := ⟨"FULL", "Sure thing", 100, 100, 100, 10⟩

/-- Witness for C7 (amended): at qFull with trueProbability 1, the Kelly
fraction is within [0,1], and the YES-side zero-clamp conclusion applies. -/
theorem kelly_fraction_clamped_witness :
    computeMetrics qFull 1 = .ok ⟨0, 1, 0, 0, 0⟩
    ∧ (0 : Rat) ≤ (DecisionMetrics.mk 0 1 0 0 0).kelly_fraction
    ∧ (DecisionMetrics.mk 0 1 0 0 0).kelly_fraction ≤ 1
    ∧ (DecisionMetrics.mk 0 1 0 0 0).kelly_fraction = 0 := by
  have hok : computeMetrics qFull 1 = .ok ⟨0, 1, 0, 0, 0⟩ := by
    unfold computeMetrics
    rw [if_neg (by norm_num)]
    dsimp only
    rw [if_pos (by norm_num [qFull])]
    norm_num [qFull]
  have h1 := (kelly_fraction_clamped.1 qFull 1 _ hok)
  have h2 := kelly_fraction_clamped.2 qFull 1 _ hok (by norm_num [qFull])
    (by norm_num [qFull]) (by norm_num [qFull]) (by norm_num [qFull])
  exact ⟨hok, h1.1, h1.2, h2⟩
